import Mathlib

/-
  Verification development for the killall-rs sources
  (src/src/processes.rs and src/src/main.rs).

  Modelling conventions:
  * Byte strings are `List Nat`, one element per byte.
  * The process-table root is `Option (List DirEntry)`: `none` means the
    root directory itself cannot be listed; each `DirEntry` carries the
    entry file name and the content of its command-name record
    (`none` when opening/reading that record fails).
  * Machine integers are `Nat` with explicit bound checks mirroring the
    checked arithmetic of the source (`checked_mul` / `checked_add`).
  * Fallible operations return `Option`; the fallible root listing
    returns `Except Unit`.
-/

/-- One directory entry of the process-table root: its file name and the
content of its command-name record, with `none` when the record cannot be
opened or read. -/
structure DirEntry where
  name : List Nat
  comm : Option (List Nat)

/-- Byte string of the constant `PROC` (`"/proc/"`), also the directory
prefix produced by `entry.path()` in main.rs. -/
def PROCB : List Nat := [47, 112, 114, 111, 99, 47]

/-- Byte string of the constant `COMM` (`"/comm"`), also the suffix added
by `.join("comm")` in main.rs. -/
def COMMB : List Nat := [47, 99, 111, 109, 109]

/-- Models `u8::is_ascii_digit`: the byte is between ASCII 0 (48) and 9 (57). -/
def isDigitB (b : Nat) : Bool := decide (48 ≤ b ∧ b ≤ 57)

/-- Decimal value of a digit byte string, the mathematical reading of the
accumulation performed by the parsing loops of both sources. -/
def decVal (bs : List Nat) : Nat := bs.foldl (fun a b => a * 10 + (b - 48)) 0

/-- Models `result.checked_mul(10)?.checked_add(d)?` against the maximum
value `maxv` of the machine-integer width used by the caller. -/
def checkedStep (maxv acc d : Nat) : Option Nat :=
  if acc * 10 > maxv then none
  else if acc * 10 + d > maxv then none
  else some (acc * 10 + d)

/-- The digit-accumulation loop (`for &b in bytes { ... }`) shared verbatim
by the two `parse_pid_from_bytes` copies; `maxv` is the maximum value of
the integer type used by each copy (`i32::MAX` in processes.rs,
`u32::MAX` in main.rs). -/
def parseLoop (maxv : Nat) : List Nat → Nat → Option Nat
  | [], acc => some acc
  | b :: bs, acc =>
    if isDigitB b then
      match checkedStep maxv acc (b - 48) with
      | none => none
      | some acc2 => parseLoop maxv bs acc2
    else none

namespace Processes

/-- Maximum value of the `i32` accumulator used by processes.rs. -/
def i32Max : Nat := 2147483647

/-- Embedding of `parse_pid_from_bytes` from src/src/processes.rs:
rejects empty input and input longer than 10 bytes, accumulates decimal
digits with `i32` checked arithmetic, and rejects a final value of zero. -/
def parse_pid_from_bytes (bytes : List Nat) : Option Nat :=
  if bytes = [] ∨ bytes.length > 10 then none
  else
    match parseLoop i32Max bytes 0 with
    | none => none
    | some r => if r = 0 then none else some r

/-- Fuelled form of the digit-emitting loop `while n > 0` of
`write_proc_comm_path`: emits the decimal digits of `n`, least significant
first, exactly as they are written into `tmp`. The fuel only serves
structural termination; `fuel = n` always suffices. -/
def lsbDigitsFuel : Nat → Nat → List Nat
  | 0, _ => []
  | _ + 1, 0 => []
  | fuel + 1, n + 1 => (48 + (n + 1) % 10) :: lsbDigitsFuel fuel ((n + 1) / 10)

/-- Contents of `tmp` after the `while n > 0` loop of
`write_proc_comm_path`: the decimal digits of `n`, least significant first. -/
def lsbDigits (n : Nat) : List Nat := lsbDigitsFuel n n

/-- The decimal digit bytes of `n`, most significant first: the digit
substring that `write_proc_comm_path` writes into the path buffer. -/
def revDigits (n : Nat) : List Nat := (lsbDigits n).reverse

/-- Result of `buf[s..s+src.len()].copy_from_slice(src)` on the list model,
assuming the bounds were checked: the bytes `src` overwrite positions
`s, ..., s + src.length - 1`. -/
def writeSeq (l : List Nat) (s : Nat) (src : List Nat) : List Nat :=
  l.take s ++ src ++ l.drop (s + src.length)

/-- Bounds-checked slice write: `none` models the out-of-bounds panic of a
Rust slice write, `some` the successfully updated buffer. -/
def copySliceChk (l : List Nat) (s : Nat) (src : List Nat) : Option (List Nat) :=
  if s + src.length ≤ l.length then some (writeSeq l s src) else none

/-- Embedding of `write_proc_comm_path` from src/src/processes.rs.
It writes `"/proc/"`, then the decimal digits of `pid` (most significant
first, `"0"` when `pid = 0`), then `"/comm"` into `buf`, and returns the
updated buffer with the total number of bytes written. The outer `none`
models an out-of-bounds write panic (never hit by the callers, as proved
below); the source itself always returns `Some(i)`. -/
def write_proc_comm_path (pid : Nat) (buf : List Nat) : Option (List Nat × Nat) :=
  match copySliceChk buf 0 PROCB with
  | none => none
  | some buf1 =>
    let tmp := lsbDigits pid
    if tmp.length > 10 then none
    else
      let ds := if tmp.length = 0 then [48] else tmp.reverse
      match copySliceChk buf1 PROCB.length ds with
      | none => none
      | some buf2 =>
        match copySliceChk buf2 (PROCB.length + ds.length) COMMB with
        | none => none
        | some buf3 => some (buf3, PROCB.length + ds.length + COMMB.length)

end Processes

/-- Resolution of a file path against the fixture: opening the path
`"/proc/" ++ name ++ "/comm"` yields the `comm` content of the root entry
called `name`, and fails when no such entry exists or its record is
unreadable. -/
def openPath (es : List DirEntry) (p : List Nat) : Option (List Nat) :=
  match es.find? (fun e => (PROCB ++ e.name ++ COMMB : List Nat) == p) with
  | some e => e.comm
  | none => none

namespace Processes

/-- Models the single `read` of at most 16 bytes into `buf` followed by the
trailing-newline strip (`if len > 0 && buf[len-1] == b'\n'`) of
processes.rs `check_entry`. -/
def stripRead (content : List Nat) : List Nat :=
  let data := content.take 16
  if data.getLast? = some 10 then data.dropLast else data

/-- Embedding of `check_entry` from src/src/processes.rs: parse the entry
name as a pid, build the `"/proc/<pid>/comm"` path in a 32-byte buffer,
open and read at most 16 bytes of that file, strip a trailing newline, and
compare with the target bytes. -/
def check_entry (es : List DirEntry) (e : DirEntry) (target : List Nat) : Option Nat :=
  match parse_pid_from_bytes e.name with
  | none => none
  | some pid =>
    match write_proc_comm_path pid (List.replicate 32 0) with
    | none => none
    | some pl =>
      match openPath es (pl.1.take pl.2) with
      | none => none
      | some content =>
        if stripRead content = target then some pid else none

/-- Embedding of `list_pids_by_comm` from src/src/processes.rs: `?` on the
root listing, then `filter_map` of `check_entry` over the entries. -/
def list_pids_by_comm (target : List Nat) (root : Option (List DirEntry)) :
    Except Unit (List Nat) :=
  match root with
  | none => Except.error ()
  | some es => Except.ok (es.filterMap (fun e => check_entry es e target))

end Processes

namespace Cli

/-- Maximum value of the `u32` accumulator used by main.rs. -/
def u32Max : Nat := 4294967295

/-- Embedding of `parse_pid_from_bytes` from src/src/main.rs: identical to
the processes.rs copy except that the accumulator is a `u32`. -/
def parse_pid_from_bytes (bytes : List Nat) : Option Nat :=
  if bytes = [] ∨ bytes.length > 10 then none
  else
    match parseLoop u32Max bytes 0 with
    | none => none
    | some r => if r = 0 then none else some r

/-- Models `BufReader::read_until(b'\n', ...)` on the record content: the
bytes up to and including the first newline, or all bytes when the record
contains no newline. -/
def readUntilNl : List Nat → List Nat
  | [] => []
  | b :: bs => if b = 10 then [10] else b :: readUntilNl bs

/-- Embedding of `check_entry` from src/src/main.rs: require an all-digit
entry name, parse it as a `u32` pid, open `entry.path().join("comm")`,
read one line, strip a trailing newline, and compare with the target. -/
def check_entry (es : List DirEntry) (e : DirEntry) (target : List Nat) : Option Nat :=
  if ¬ (e.name.all isDigitB) then none
  else
    match parse_pid_from_bytes e.name with
    | none => none
    | some pid =>
      match openPath es (PROCB ++ e.name ++ COMMB) with
      | none => none
      | some content =>
        let buf := readUntilNl content
        let buf2 := if buf.getLast? = some 10 then buf.dropLast else buf
        if buf2 = target then some pid else none

/-- Embedding of `list_pids_by_comm` from src/src/main.rs. -/
def list_pids_by_comm (target : List Nat) (root : Option (List DirEntry)) :
    Except Unit (List Nat) :=
  match root with
  | none => Except.error ()
  | some es => Except.ok (es.filterMap (fun e => check_entry es e target))

/-- Embedding of the static `SIGNALS` table of main.rs, in declaration
order; each pair is the canonical name as a byte string and the Linux
signal number of the corresponding `nix::sys::signal::Signal` value. -/
def SIGNALS : List (List Nat × Nat) :=
  [ ([73, 78, 84], 2),
    ([84, 69, 82, 77], 15),
    ([75, 73, 76, 76], 9),
    ([72, 85, 80], 1),
    ([81, 85, 73, 84], 3),
    ([85, 83, 82, 49], 10),
    ([85, 83, 82, 50], 12),
    ([65, 76, 82, 77], 14),
    ([67, 79, 78, 84], 18),
    ([83, 84, 79, 80], 19),
    ([84, 83, 84, 80], 20),
    ([67, 72, 76, 68], 17),
    ([80, 73, 80, 69], 13),
    ([83, 69, 71, 86], 11),
    ([65, 66, 82, 84], 6),
    ([73, 76, 76], 4),
    ([84, 82, 65, 80], 5),
    ([66, 85, 83], 7),
    ([70, 80, 69], 8),
    ([84, 84, 73, 78], 21),
    ([84, 84, 79, 85], 22),
    ([85, 82, 71], 23),
    ([88, 67, 80, 85], 24),
    ([88, 70, 83, 90], 25),
    ([86, 84, 65, 76, 82, 77], 26),
    ([80, 82, 79, 70], 27),
    ([87, 73, 78, 67, 72], 28),
    ([73, 79], 29),
    ([80, 87, 82], 30),
    ([83, 89, 83], 31) ]

/-- ASCII uppercasing of one byte, the byte-level action of
`str::to_uppercase` on the ASCII range (the only range that can match the
all-ASCII signal table). -/
def upperByte (b : Nat) : Nat := if 97 ≤ b ∧ b ≤ 122 then b - 32 else b

/-- Models `name.to_uppercase()` on the byte-string model. -/
def to_uppercase (bs : List Nat) : List Nat := bs.map upperByte

/-- Embedding of `parse_signal` from main.rs: uppercase the input, then
look it up in `SIGNALS` and return the signal value. -/
def parse_signal (name : List Nat) : Option Nat :=
  (SIGNALS.find? (fun p => p.1 == to_uppercase name)).map (fun p => p.2)

/-- Embedding of `list_signals` from main.rs: the table names in
declaration order, joined by single spaces (byte 32). -/
def list_signals : List Nat :=
  List.intercalate [32] (SIGNALS.map (fun p => p.1))

/-- Embedding of `MAX_NAMES` from main.rs:
`size_of::<usize>() * 8 = 64` on the 64-bit target. -/
def MAX_NAMES : Nat := 64

/-- The command-line arguments after successful clap parsing. -/
structure Args where
  process_names : List (List Nat)
  list : Bool
  signal : Option (List Nat)

/-- The per-name loop at the end of `main`: each iteration either reports
a listing error, reports that no process was found, or sends the signal to
every matched pid, reporting per-pid delivery failures; none of these
outcomes changes the process exit status, and the loop always runs to
completion, so the loop contributes exit status 0. -/
def runNames (names : List (List Nat)) (root : Option (List DirEntry)) : Nat :=
  match names with
  | [] => 0
  | n :: rest =>
    let _ := list_pids_by_comm n root
    runNames rest root

/-- Embedding of `main` from src/src/main.rs as a function from the parsed
arguments and the process-table state to the process exit status:
`--list` prints the signal list and exits 0; more than `MAX_NAMES` names
exits 1; an unknown `--signal` name exits 1; otherwise the per-name loop
runs and the program exits 0. -/
def mainRun (args : Args) (root : Option (List DirEntry)) : Nat :=
  if args.list then 0
  else if args.process_names.length > MAX_NAMES then 1
  else
    match args.signal with
    | some name =>
      match parse_signal name with
      | some _ => runNames args.process_names root
      | none => 1
    | none => runNames args.process_names root

end Cli

/-- Two successive discovery calls against the same, unchanged process
table: the state passed to the second call is the state left by the first
(directory reads do not modify the table). -/
def discoverTwice (target : List Nat) (root : Option (List DirEntry)) :
    Except Unit (List Nat) × Except Unit (List Nat) :=
  (Processes.list_pids_by_comm target root, Processes.list_pids_by_comm target root)

/-- Models a guarded `u8` subtraction `a - b`: `none` is the debug-mode
underflow panic. -/
def subChk (a b : Nat) : Option Nat :=
  if b ≤ a then some (a - b) else none

/-- The parsing loop with every fallible `u8` subtraction instrumented:
the outer `none` marks a would-be underflow panic, `some r` a normal
completion with loop result `r` (the checked multiply/add already return
`None` by design and are not panics). -/
def parseLoopChk (maxv : Nat) : List Nat → Nat → Option (Option Nat)
  | [], acc => some (some acc)
  | b :: bs, acc =>
    if isDigitB b then
      match subChk b 48 with
      | none => none
      | some d =>
        match checkedStep maxv acc d with
        | none => some none
        | some acc2 => parseLoopChk maxv bs acc2
    else some none

namespace Processes

/-- `parse_pid_from_bytes` of processes.rs with instrumented fallible
operations: the outer `none` marks a would-be panic. -/
def parse_pid_checked (bytes : List Nat) : Option (Option Nat) :=
  if bytes = [] ∨ bytes.length > 10 then some none
  else
    match parseLoopChk i32Max bytes 0 with
    | none => none
    | some none => some none
    | some (some r) => some (if r = 0 then none else some r)

end Processes

namespace Cli

/-- `parse_pid_from_bytes` of main.rs with instrumented fallible
operations: the outer `none` marks a would-be panic. -/
def parse_pid_checked (bytes : List Nat) : Option (Option Nat) :=
  if bytes = [] ∨ bytes.length > 10 then some none
  else
    match parseLoopChk u32Max bytes 0 with
    | none => none
    | some none => some none
    | some (some r) => some (if r = 0 then none else some r)

end Cli

/-- Decimal accumulation starting from an arbitrary accumulator value,
the mathematical reading of the parsing loop state. -/
def valFrom (acc : Nat) (bs : List Nat) : Nat :=
  bs.foldl (fun a b => a * 10 + (b - 48)) acc

/-- Stripping of a single trailing newline from a record, following the
words of the specification ("the record's trailing newline, if present,
is stripped"). -/
def stripNl (content : List Nat) : List Nat :=
  if content.getLast? = some 10 then content.dropLast else content

/-- Well-formedness of an entry's record for the 16-byte read buffer of
processes.rs: a readable record is at most 16 bytes long. -/
def recOk (e : DirEntry) : Bool :=
  match e.comm with
  | some c => decide (c.length ≤ 16)
  | none => true

/-- Well-formedness of an entry's record for the line-based reader of
main.rs: a readable record contains a newline only as its final byte. -/
def recNlOk (e : DirEntry) : Bool :=
  match e.comm with
  | some c => decide (¬ 10 ∈ c.dropLast)
  | none => true

/-- Canonical naming of an entry: when its name parses as a pid, the name
is exactly the decimal digit string of that pid (no leading zeros), as is
the case for every real process-table entry. -/
def canonOk (e : DirEntry) : Bool :=
  match Processes.parse_pid_from_bytes e.name with
  | some p => e.name == Processes.revDigits p
  | none => true

/-- Bound on the entry's parsed pid: when the name parses as a `u32` pid,
the value also fits an `i32`. -/
def pidOk (e : DirEntry) : Bool :=
  match Cli.parse_pid_from_bytes e.name with
  | some p => decide (p ≤ Processes.i32Max)
  | none => true

/-- The per-entry condition stated by claim C1, formalized from the words
of the specification: the entry's name consists entirely of ASCII digits
and parses to the nonzero identifier `p`, its command-name record is
readable, and the record's bytes after stripping a single trailing
newline equal the target byte-for-byte. -/
def c1Matches (target : List Nat) (p : Nat) (e : DirEntry) : Bool :=
  e.name.all isDigitB &&
  (Processes.parse_pid_from_bytes e.name == some p) &&
  decide (0 < p) &&
  (match e.comm with
   | some c => stripNl c == target
   | none => false)

lemma upperByte_idem (b : Nat) : Cli.upperByte (Cli.upperByte b) = Cli.upperByte b := by
  by_cases h : 97 ≤ b ∧ b ≤ 122
  · simp only [Cli.upperByte, if_pos h]
    rw [if_neg (by omega)]
  · simp only [Cli.upperByte, if_neg h]

lemma to_uppercase_idem (bs : List Nat) :
    Cli.to_uppercase (Cli.to_uppercase bs) = Cli.to_uppercase bs := by
  induction bs with
  | nil => rfl
  | cons b bs ih =>
    simp only [Cli.to_uppercase, List.map_cons, List.map_map] at ih ⊢
    exact List.cons_eq_cons.mpr ⟨upperByte_idem b, ih⟩

lemma parseLoopChk_eq (maxv : Nat) (bs : List Nat) :
    ∀ acc, parseLoopChk maxv bs acc = some (parseLoop maxv bs acc) := by
  induction bs with
  | nil => intro acc; rfl
  | cons b bs ih =>
    intro acc
    by_cases hd : isDigitB b
    · have h48 : (48 : Nat) ≤ b := by
        simp only [isDigitB, decide_eq_true_eq] at hd; exact hd.1
      simp only [parseLoopChk, parseLoop, hd, if_true, subChk, if_pos h48]
      cases h : checkedStep maxv acc (b - 48) with
      | none => rfl
      | some acc2 => exact ih acc2
    · simp [parseLoopChk, parseLoop, hd]

lemma decVal_eq_valFrom (bs : List Nat) : decVal bs = valFrom 0 bs := rfl

lemma valFrom_cons (acc b : Nat) (bs : List Nat) :
    valFrom acc (b :: bs) = valFrom (acc * 10 + (b - 48)) bs := rfl

lemma valFrom_le (bs : List Nat) : ∀ acc, acc ≤ valFrom acc bs := by
  induction bs with
  | nil => intro acc; exact Nat.le_refl acc
  | cons b bs ih =>
    intro acc
    calc acc ≤ acc * 10 + (b - 48) := by omega
    _ ≤ valFrom (acc * 10 + (b - 48)) bs := ih _
    _ = valFrom acc (b :: bs) := (valFrom_cons acc b bs).symm

lemma parseLoop_some (maxv : Nat) (bs : List Nat) :
    ∀ acc, (∀ b ∈ bs, isDigitB b) → valFrom acc bs ≤ maxv →
      parseLoop maxv bs acc = some (valFrom acc bs) := by
  induction bs with
  | nil => intro acc _ _; rfl
  | cons b bs ih =>
    intro acc hd hv
    have hstep : acc * 10 + (b - 48) ≤ maxv := by
      have h1 := valFrom_le bs (acc * 10 + (b - 48))
      rw [valFrom_cons] at hv
      omega
    have hbd : isDigitB b := hd b (List.mem_cons_self b bs)
    simp only [parseLoop, hbd, if_true, checkedStep,
      if_neg (by omega : ¬ acc * 10 > maxv),
      if_neg (by omega : ¬ acc * 10 + (b - 48) > maxv)]
    rw [valFrom_cons]
    exact ih _ (fun x hx => hd x (List.mem_cons_of_mem b hx)) (by rw [valFrom_cons] at hv; exact hv)

lemma parseLoop_overflow (maxv : Nat) (bs : List Nat) :
    ∀ acc, acc ≤ maxv → (∀ b ∈ bs, isDigitB b) → maxv < valFrom acc bs →
      parseLoop maxv bs acc = none := by
  induction bs with
  | nil =>
    intro acc hacc _ hv
    simp only [valFrom, List.foldl_nil] at hv
    omega
  | cons b bs ih =>
    intro acc hacc hd hv
    have hbd : isDigitB b := hd b (List.mem_cons_self b bs)
    simp only [parseLoop, hbd, if_true, checkedStep]
    by_cases h1 : acc * 10 > maxv
    · simp [h1]
    · by_cases h2 : acc * 10 + (b - 48) > maxv
      · simp [h1, h2]
      · simp only [if_neg h1, if_neg h2]
        exact ih _ (by omega) (fun x hx => hd x (List.mem_cons_of_mem b hx))
          (by rw [valFrom_cons] at hv; exact hv)

lemma parseLoop_nondigit (maxv : Nat) (bs : List Nat) :
    ∀ acc, (∃ b ∈ bs, ¬ isDigitB b) → parseLoop maxv bs acc = none := by
  induction bs with
  | nil => intro acc h; exact absurd h (by simp)
  | cons b bs ih =>
    intro acc h
    by_cases hbd : isDigitB b
    · have hex : ∃ x ∈ bs, ¬ isDigitB x := by
        rcases h with ⟨x, hx, hnx⟩
        rcases List.mem_cons.mp hx with rfl | hx2
        · exact absurd hbd hnx
        · exact ⟨x, hx2, hnx⟩
      simp only [parseLoop, hbd, if_true]
      cases checkedStep maxv acc (b - 48) with
      | none => rfl
      | some acc2 => exact ih acc2 hex
    · simp [parseLoop, hbd]

/-- Full characterization of the parsing algorithm shared by both copies
of `parse_pid_from_bytes`, for an arbitrary accumulator bound. -/
lemma parse_general (maxv : Nat) (bs : List Nat) :
    (if bs = [] ∨ bs.length > 10 then none
     else
       match parseLoop maxv bs 0 with
       | none => none
       | some r => if r = 0 then none else some r)
    = if bs ≠ [] ∧ bs.length ≤ 10 ∧ (∀ b ∈ bs, isDigitB b) ∧
         0 < decVal bs ∧ decVal bs ≤ maxv
      then some (decVal bs) else none := by
  by_cases h1 : bs = [] ∨ bs.length > 10
  · rw [if_pos h1, if_neg]
    rintro ⟨ha, hb, -⟩
    rcases h1 with h | h
    · exact ha h
    · omega
  · push_neg at h1
    rw [if_neg (by rcases h1 with ⟨ha, hb⟩; rintro (h | h); exact ha h; omega)]
    by_cases hd : ∀ b ∈ bs, isDigitB b
    · by_cases hv : decVal bs ≤ maxv
      · rw [decVal_eq_valFrom] at hv
        rw [parseLoop_some maxv bs 0 hd hv]
        by_cases hz : decVal bs = 0
        · rw [if_neg (by rintro ⟨-, -, -, hpos, -⟩; omega)]
          simp [← decVal_eq_valFrom, hz]
        · rw [if_pos ⟨h1.1, h1.2, hd, by omega, by rw [decVal_eq_valFrom]; exact hv⟩]
          simp only [← decVal_eq_valFrom, if_neg hz]
      · rw [parseLoop_overflow maxv bs 0 (Nat.zero_le maxv) hd
          (by rw [decVal_eq_valFrom] at hv; omega)]
        rw [if_neg (by rintro ⟨-, -, -, -, hle⟩; omega)]
    · rw [parseLoop_nondigit maxv bs 0 (by push_neg at hd; exact hd)]
      rw [if_neg (by rintro ⟨-, -, hall, -⟩; exact hd hall)]

/-- Characterization instance for the processes.rs copy. -/
lemma parse_spec_i32 (bs : List Nat) :
    Processes.parse_pid_from_bytes bs
    = if bs ≠ [] ∧ bs.length ≤ 10 ∧ (∀ b ∈ bs, isDigitB b) ∧
         0 < decVal bs ∧ decVal bs ≤ Processes.i32Max
      then some (decVal bs) else none :=
  parse_general Processes.i32Max bs

/-- Characterization instance for the main.rs copy. -/
lemma parse_spec_u32 (bs : List Nat) :
    Cli.parse_pid_from_bytes bs
    = if bs ≠ [] ∧ bs.length ≤ 10 ∧ (∀ b ∈ bs, isDigitB b) ∧
         0 < decVal bs ∧ decVal bs ≤ Cli.u32Max
      then some (decVal bs) else none :=
  parse_general Cli.u32Max bs

lemma Processes.parse_eq_some_iff (bs : List Nat) (p : Nat) :
    Processes.parse_pid_from_bytes bs = some p
    ↔ (bs ≠ [] ∧ bs.length ≤ 10 ∧ (∀ b ∈ bs, isDigitB b) ∧
       0 < p ∧ p ≤ Processes.i32Max ∧ decVal bs = p) := by
  rw [parse_spec_i32]
  by_cases h : bs ≠ [] ∧ bs.length ≤ 10 ∧ (∀ b ∈ bs, isDigitB b) ∧
      0 < decVal bs ∧ decVal bs ≤ Processes.i32Max
  · rw [if_pos h]
    constructor
    · rintro hsome
      have : decVal bs = p := by injection hsome
      rcases h with ⟨h1, h2, h3, h4, h5⟩
      exact ⟨h1, h2, h3, by omega, by omega, this⟩
    · rintro ⟨-, -, -, -, -, hval⟩
      rw [hval]
  · rw [if_neg h]
    constructor
    · intro hnone; simp at hnone
    · rintro ⟨h1, h2, h3, h4, h5, hval⟩
      exact absurd ⟨h1, h2, h3, by omega, by omega⟩ h

/-- Claim C2 (amended): for every all-digit byte string of length at most
10 whose decimal value is positive and at most the maximum representable
identifier of the respective copy (`i32::MAX` in processes.rs, `u32::MAX`
in main.rs), `parse_pid_from_bytes` returns exactly that value; every
other input (empty, longer than 10 bytes, containing a non-digit,
overflowing, or of value zero) returns no result. -/
theorem c2_parse_pid_characterization :
    ∀ bs : List Nat,
      Processes.parse_pid_from_bytes bs
        = (if bs ≠ [] ∧ bs.length ≤ 10 ∧ (∀ b ∈ bs, isDigitB b) ∧
              0 < decVal bs ∧ decVal bs ≤ Processes.i32Max
           then some (decVal bs) else none) ∧
      Cli.parse_pid_from_bytes bs
        = (if bs ≠ [] ∧ bs.length ≤ 10 ∧ (∀ b ∈ bs, isDigitB b) ∧
              0 < decVal bs ∧ decVal bs ≤ Cli.u32Max
           then some (decVal bs) else none) :=
  fun bs => ⟨parse_spec_i32 bs, parse_spec_u32 bs⟩

/-- Claim C2 counterexample: the byte string "00000000001" consists only
of ASCII digits and has decimal value 1 — positive and far below the
maximum representable identifier — yet both copies of
`parse_pid_from_bytes` return no result, because the input is 11 bytes
long and the length gate rejects everything longer than 10 bytes. -/
theorem c2_counterexample_leading_zeros :
    (∀ b ∈ ([48, 48, 48, 48, 48, 48, 48, 48, 48, 48, 49] : List Nat), isDigitB b) ∧
    decVal [48, 48, 48, 48, 48, 48, 48, 48, 48, 48, 49] = 1 ∧
    Processes.parse_pid_from_bytes [48, 48, 48, 48, 48, 48, 48, 48, 48, 48, 49] = none ∧
    Cli.parse_pid_from_bytes [48, 48, 48, 48, 48, 48, 48, 48, 48, 48, 49] = none := by
  decide

/-- Claim C3: the discovery call fails with an I/O error exactly when the
process-table root itself cannot be listed; whenever the root is listable,
every per-entry failure is absorbed and the call returns a successful
(possibly empty) list. -/
theorem c3_error_iff_root_unlistable :
    ∀ (root : Option (List DirEntry)) (target : List Nat),
      (∃ u, Processes.list_pids_by_comm target root = Except.error u) ↔ root = none := by
  intro root target
  cases root <;> simp [Processes.list_pids_by_comm]

/-- Claim C5: signal-name resolution is case-insensitive — resolving any
name gives the same result as resolving its uppercased form; in
particular "term", "TERM" and "Term" resolve to the same descriptor
(SIGTERM, 15) and "notasignal" resolves to nothing. -/
theorem c5_signal_case_insensitive :
    (∀ name : List Nat, Cli.parse_signal name = Cli.parse_signal (Cli.to_uppercase name)) ∧
    Cli.parse_signal [116, 101, 114, 109] = Cli.parse_signal [84, 69, 82, 77] ∧
    Cli.parse_signal [84, 101, 114, 109] = Cli.parse_signal [84, 69, 82, 77] ∧
    Cli.parse_signal [84, 69, 82, 77] = some 15 ∧
    Cli.parse_signal [110, 111, 116, 97, 115, 105, 103, 110, 97, 108] = none := by
  refine ⟨?_, by decide, by decide, by decide, by decide⟩
  intro name
  unfold Cli.parse_signal
  rw [to_uppercase_idem]

/-- Claim C6: `list_signals` joins the table names with single spaces in
declaration order; the name sequence has no duplicates, no name contains a
space, and exactly `SIGNALS.length - 1` separator spaces occur, so the
rendered order is the declaration order of the table (a pure constant,
identical on every call). -/
theorem c6_list_signals_order :
    Cli.list_signals = List.intercalate [32] (Cli.SIGNALS.map (fun p => p.1)) ∧
    (Cli.SIGNALS.map (fun p => p.1)).Nodup ∧
    (∀ n ∈ Cli.SIGNALS.map (fun p => p.1), ¬ (32 ∈ n)) ∧
    Cli.list_signals.count 32 = Cli.SIGNALS.length - 1 ∧
    Cli.SIGNALS.length = 30 := by
  refine ⟨rfl, by decide, by decide, by decide, by decide⟩

/-- Claim C7: both copies of `parse_pid_from_bytes` are total and
panic-free — on every input, running them with every fallible primitive
operation instrumented completes normally (never hits the panic marker)
and returns exactly the value of the uninstrumented function. -/
theorem c7_parse_pid_never_panics :
    ∀ bs : List Nat,
      Processes.parse_pid_checked bs = some (Processes.parse_pid_from_bytes bs) ∧
      Cli.parse_pid_checked bs = some (Cli.parse_pid_from_bytes bs) := by
  intro bs
  constructor
  · unfold Processes.parse_pid_checked Processes.parse_pid_from_bytes
    by_cases h : bs = [] ∨ bs.length > 10
    · simp [h]
    · simp only [h, if_false, parseLoopChk_eq]
      cases parseLoop Processes.i32Max bs 0 <;> rfl
  · unfold Cli.parse_pid_checked Cli.parse_pid_from_bytes
    by_cases h : bs = [] ∨ bs.length > 10
    · simp [h]
    · simp only [h, if_false, parseLoopChk_eq]
      cases parseLoop Cli.u32Max bs 0 <;> rfl

lemma runNames_eq_zero (names : List (List Nat)) (root : Option (List DirEntry)) :
    Cli.runNames names root = 0 := by
  induction names with
  | nil => rfl
  | cons n rest ih => simpa [Cli.runNames] using ih

/-- Claim C4 (amended): the program exits with a non-zero status exactly
when it is not in list mode and either the number of target names exceeds
`MAX_NAMES` (64, the platform's native integer bit width) or an unknown
signal name was supplied; a target name with zero matches is reported on
stderr but the per-name loop continues and the exit status stays 0. -/
theorem c4_exit_status_characterization :
    ∀ (args : Cli.Args) (root : Option (List DirEntry)),
      Cli.mainRun args root ≠ 0
      ↔ (args.list = false ∧
         (args.process_names.length > Cli.MAX_NAMES ∨
          ∃ s, args.signal = some s ∧ Cli.parse_signal s = none)) := by
  intro args root
  unfold Cli.mainRun
  by_cases hl : args.list
  · simp [hl]
  · by_cases hn : args.process_names.length > Cli.MAX_NAMES
    · simp [hl, hn]
    · cases hs : args.signal with
      | none => simp [hl, hn, hs, runNames_eq_zero]
      | some s =>
        cases hp : Cli.parse_signal s <;>
          simp [hl, hn, hs, hp, runNames_eq_zero]

/-- Claim C4 counterexample: with one target name "x", a listable process
table with no matching entry, and no signal flag, the discovery call
returns an empty (successful) match list and the program exits with
status 0, contradicting the claim that a name with no matching process
forces a non-zero exit status. -/
theorem c4_counterexample_no_match_exits_zero :
    Cli.list_pids_by_comm [120] (some []) = Except.ok [] ∧
    Cli.mainRun { process_names := [[120]], list := false, signal := none }
      (some []) = 0 :=
  ⟨rfl, rfl⟩

lemma lsbDigitsFuel_irrel :
    ∀ f1 f2 n, n ≤ f1 → n ≤ f2 →
      Processes.lsbDigitsFuel f1 n = Processes.lsbDigitsFuel f2 n := by
  intro f1
  induction f1 with
  | zero =>
    intro f2 n h1 _
    have : n = 0 := by omega
    subst this
    cases f2 <;> rfl
  | succ f1 ih =>
    intro f2 n h1 h2
    cases n with
    | zero => cases f2 <;> rfl
    | succ m =>
      cases f2 with
      | zero => omega
      | succ f2 =>
        simp only [Processes.lsbDigitsFuel]
        rw [ih f2 ((m + 1) / 10) (by omega) (by omega)]

lemma lsbDigits_step (n : Nat) (h : 0 < n) :
    Processes.lsbDigits n = (48 + n % 10) :: Processes.lsbDigits (n / 10) := by
  cases n with
  | zero => omega
  | succ m =>
    show Processes.lsbDigitsFuel (m + 1) (m + 1) = _
    simp only [Processes.lsbDigitsFuel]
    rw [lsbDigitsFuel_irrel m ((m + 1) / 10) ((m + 1) / 10) (by omega) (by omega)]
    rfl

lemma lsbDigits_ne_nil (n : Nat) (h : 0 < n) : Processes.lsbDigits n ≠ [] := by
  rw [lsbDigits_step n h]
  exact List.cons_ne_nil _ _

lemma lsbDigits_digits (n : Nat) : ∀ b ∈ Processes.lsbDigits n, isDigitB b := by
  induction n using Nat.strong_induction_on with
  | _ n ih =>
    cases Nat.eq_zero_or_pos n with
    | inl h0 => subst h0; intro b hb; exact absurd hb (by simp [Processes.lsbDigits, Processes.lsbDigitsFuel])
    | inr hpos =>
      rw [lsbDigits_step n hpos]
      intro b hb
      rcases List.mem_cons.mp hb with rfl | hb2
      · simp only [isDigitB, decide_eq_true_eq]
        omega
      · exact ih (n / 10) (Nat.div_lt_self hpos (by omega)) b hb2

lemma decVal_append_single (xs : List Nat) (d : Nat) :
    decVal (xs ++ [d]) = decVal xs * 10 + (d - 48) := by
  simp [decVal, List.foldl_append]

lemma decVal_revDigits (n : Nat) : decVal (Processes.revDigits n) = n := by
  induction n using Nat.strong_induction_on with
  | _ n ih =>
    cases Nat.eq_zero_or_pos n with
    | inl h0 => subst h0; rfl
    | inr hpos =>
      unfold Processes.revDigits
      rw [lsbDigits_step n hpos, List.reverse_cons, decVal_append_single]
      rw [show (Processes.lsbDigits (n / 10)).reverse = Processes.revDigits (n / 10) from rfl]
      rw [ih (n / 10) (Nat.div_lt_self hpos (by omega))]
      omega

lemma lsbDigits_length_le : ∀ (k n : Nat), n < 10 ^ k →
    (Processes.lsbDigits n).length ≤ k := by
  intro k
  induction k with
  | zero =>
    intro n hn
    have : n = 0 := by simpa using hn
    subst this
    simp [Processes.lsbDigits, Processes.lsbDigitsFuel]
  | succ k ih =>
    intro n hn
    cases Nat.eq_zero_or_pos n with
    | inl h0 => subst h0; simp [Processes.lsbDigits, Processes.lsbDigitsFuel]
    | inr hpos =>
      rw [lsbDigits_step n hpos]
      simp only [List.length_cons]
      have hdiv : n / 10 < 10 ^ k := by
        rw [Nat.div_lt_iff_lt_mul (by omega : (0:Nat) < 10)]
        calc n < 10 ^ (k + 1) := hn
        _ = 10 ^ k * 10 := by ring
      exact Nat.succ_le_succ (ih (n / 10) hdiv)

lemma head?_append_ne_nil (xs ys : List Nat) (h : xs ≠ []) :
    (xs ++ ys).head? = xs.head? := by
  cases xs with
  | nil => exact absurd rfl h
  | cons a t => rfl

lemma revDigits_head_ne_48 :
    ∀ n, 0 < n → ∀ d, (Processes.revDigits n).head? = some d → d ≠ 48 := by
  intro n
  induction n using Nat.strong_induction_on with
  | _ n ih =>
    intro hpos d hd
    unfold Processes.revDigits at hd
    rw [lsbDigits_step n hpos, List.reverse_cons] at hd
    cases Nat.eq_zero_or_pos (n / 10) with
    | inl h0 =>
      rw [h0] at hd
      simp only [Processes.lsbDigits, Processes.lsbDigitsFuel, List.reverse_nil,
        List.nil_append, List.head?_cons, Option.some.injEq] at hd
      have hlt : n < 10 := by omega
      have : n % 10 = n := Nat.mod_eq_of_lt hlt
      omega
    | inr hdivpos =>
      have hne : (Processes.lsbDigits (n / 10)).reverse ≠ [] := by
        intro hc
        exact lsbDigits_ne_nil (n / 10) hdivpos (by simpa using congrArg List.reverse hc)
      rw [head?_append_ne_nil _ _ hne] at hd
      exact ih (n / 10) (Nat.div_lt_self hpos (by omega)) hdivpos d hd

lemma pow_ten_ten : (10 : Nat) ^ 10 = 10000000000 := by norm_num

lemma lsbDigits_length_le_ten (pid : Nat) (h : pid ≤ Processes.i32Max) :
    (Processes.lsbDigits pid).length ≤ 10 := by
  refine lsbDigits_length_le 10 pid ?_
  rw [pow_ten_ten]
  unfold Processes.i32Max at h
  omega

lemma parse_revDigits (n : Nat) (h1 : 0 < n) (h2 : n ≤ Processes.i32Max) :
    Processes.parse_pid_from_bytes (Processes.revDigits n) = some n := by
  rw [Processes.parse_eq_some_iff]
  refine ⟨?_, ?_, ?_, h1, h2, decVal_revDigits n⟩
  · intro hc
    exact lsbDigits_ne_nil n h1
      (by simpa [Processes.revDigits] using congrArg List.reverse hc)
  · unfold Processes.revDigits
    rw [List.length_reverse]
    exact lsbDigits_length_le_ten n h2
  · intro b hb
    exact lsbDigits_digits n b (by simpa [Processes.revDigits] using hb)

lemma writeSeq_length (l src : List Nat) (s : Nat) (h : s + src.length ≤ l.length) :
    (Processes.writeSeq l s src).length = l.length := by
  simp only [Processes.writeSeq, List.length_append, List.length_take, List.length_drop]
  omega

lemma writeSeq_take_concat (l src : List Nat) (s : Nat) (h : s + src.length ≤ l.length) :
    (Processes.writeSeq l s src).take (s + src.length) = l.take s ++ src := by
  unfold Processes.writeSeq
  refine List.take_left' ?_
  simp only [List.length_append, List.length_take]
  omega

lemma copySliceChk_pos (l src : List Nat) (s : Nat) (h : s + src.length ≤ l.length) :
    Processes.copySliceChk l s src = some (Processes.writeSeq l s src) := by
  unfold Processes.copySliceChk
  rw [if_pos h]

lemma write_path_eval (pid : Nat) (h1 : 0 < pid) (h2 : pid ≤ Processes.i32Max) :
    Processes.write_proc_comm_path pid (List.replicate 32 0)
      = some
        (Processes.writeSeq
          (Processes.writeSeq (Processes.writeSeq (List.replicate 32 0) 0 PROCB)
            PROCB.length (Processes.lsbDigits pid).reverse)
          (PROCB.length + (Processes.lsbDigits pid).reverse.length) COMMB,
        PROCB.length + (Processes.lsbDigits pid).reverse.length + COMMB.length) := by
  have hk : (Processes.lsbDigits pid).length ≤ 10 := lsbDigits_length_le_ten pid h2
  have hne0 : ¬ (Processes.lsbDigits pid).length = 0 := fun hc =>
    lsbDigits_ne_nil pid h1 (List.length_eq_zero.mp hc)
  have hgt : ¬ (Processes.lsbDigits pid).length > 10 := by omega
  have l1 : (Processes.writeSeq (List.replicate 32 0) 0 PROCB).length = 32 := by
    rw [writeSeq_length _ _ _ (by simp [PROCB])]
    simp
  have hb2 : PROCB.length + (Processes.lsbDigits pid).reverse.length
      ≤ (Processes.writeSeq (List.replicate 32 0) 0 PROCB).length := by
    rw [l1, List.length_reverse]
    simp only [PROCB, List.length_cons, List.length_nil]
    omega
  have l2 : (Processes.writeSeq (Processes.writeSeq (List.replicate 32 0) 0 PROCB)
      PROCB.length (Processes.lsbDigits pid).reverse).length = 32 := by
    rw [writeSeq_length _ _ _ hb2, l1]
  have hb3 : (PROCB.length + (Processes.lsbDigits pid).reverse.length) + COMMB.length
      ≤ (Processes.writeSeq (Processes.writeSeq (List.replicate 32 0) 0 PROCB)
        PROCB.length (Processes.lsbDigits pid).reverse).length := by
    rw [l2, List.length_reverse]
    simp only [PROCB, COMMB, List.length_cons, List.length_nil]
    omega
  have c1 : Processes.copySliceChk (List.replicate 32 0) 0 PROCB
      = some (Processes.writeSeq (List.replicate 32 0) 0 PROCB) :=
    copySliceChk_pos _ _ _ (by simp [PROCB])
  have c2 := copySliceChk_pos _ _ _ hb2
  have c3 := copySliceChk_pos _ _ _ hb3
  simp only [Processes.write_proc_comm_path, c1, hgt, hne0, if_false, ite_false, c2, c3]

lemma write_path_take (pid : Nat) (_h1 : 0 < pid) (h2 : pid ≤ Processes.i32Max) :
    (Processes.writeSeq
        (Processes.writeSeq (Processes.writeSeq (List.replicate 32 0) 0 PROCB)
          PROCB.length (Processes.lsbDigits pid).reverse)
        (PROCB.length + (Processes.lsbDigits pid).reverse.length) COMMB).take
      (PROCB.length + (Processes.lsbDigits pid).reverse.length + COMMB.length)
      = PROCB ++ (Processes.lsbDigits pid).reverse ++ COMMB := by
  have hk : (Processes.lsbDigits pid).length ≤ 10 := lsbDigits_length_le_ten pid h2
  have l1 : (Processes.writeSeq (List.replicate 32 0) 0 PROCB).length = 32 := by
    rw [writeSeq_length _ _ _ (by simp [PROCB])]
    simp
  have hb2 : PROCB.length + (Processes.lsbDigits pid).reverse.length
      ≤ (Processes.writeSeq (List.replicate 32 0) 0 PROCB).length := by
    rw [l1, List.length_reverse]
    simp only [PROCB, List.length_cons, List.length_nil]
    omega
  have l2 : (Processes.writeSeq (Processes.writeSeq (List.replicate 32 0) 0 PROCB)
      PROCB.length (Processes.lsbDigits pid).reverse).length = 32 := by
    rw [writeSeq_length _ _ _ hb2, l1]
  have hb3 : (PROCB.length + (Processes.lsbDigits pid).reverse.length) + COMMB.length
      ≤ (Processes.writeSeq (Processes.writeSeq (List.replicate 32 0) 0 PROCB)
        PROCB.length (Processes.lsbDigits pid).reverse).length := by
    rw [l2, List.length_reverse]
    simp only [PROCB, COMMB, List.length_cons, List.length_nil]
    omega
  have b1take : (Processes.writeSeq (List.replicate 32 0) 0 PROCB).take PROCB.length
      = PROCB := by
    have h := writeSeq_take_concat (List.replicate 32 0) PROCB 0 (by simp [PROCB])
    simpa using h
  rw [writeSeq_take_concat _ _ _ hb3, writeSeq_take_concat _ _ _ hb2, b1take]

/-- Claim C10: for every positive pid representable in the identifier
width, `write_proc_comm_path` fills its 32-byte buffer with exactly
`"/proc/"`, the decimal digits of the pid (no leading zeros), and
`"/comm"`, without any out-of-bounds access (the instrumented bounds
checks all pass), returns the total length of those bytes, and
`parse_pid_from_bytes` applied to the digit substring recovers exactly
the pid. -/
theorem c10_write_path_roundtrip (pid : Nat)
    (h1 : 0 < pid) (h2 : pid ≤ Processes.i32Max) :
    ∃ buf,
      Processes.write_proc_comm_path pid (List.replicate 32 0)
        = some (buf, (PROCB ++ Processes.revDigits pid ++ COMMB).length) ∧
      buf.take ((PROCB ++ Processes.revDigits pid ++ COMMB).length)
        = PROCB ++ Processes.revDigits pid ++ COMMB ∧
      (∀ d, (Processes.revDigits pid).head? = some d → d ≠ 48) ∧
      Processes.parse_pid_from_bytes (Processes.revDigits pid) = some pid := by
  have hlen : (PROCB ++ Processes.revDigits pid ++ COMMB).length
      = PROCB.length + (Processes.lsbDigits pid).reverse.length + COMMB.length := by
    simp [Processes.revDigits, List.length_append]
    omega
  refine ⟨Processes.writeSeq
      (Processes.writeSeq (Processes.writeSeq (List.replicate 32 0) 0 PROCB)
        PROCB.length (Processes.lsbDigits pid).reverse)
      (PROCB.length + (Processes.lsbDigits pid).reverse.length) COMMB,
    ?_, ?_, revDigits_head_ne_48 pid h1, parse_revDigits pid h1 h2⟩
  · rw [hlen]
    exact write_path_eval pid h1 h2
  · rw [hlen]
    rw [write_path_take pid h1 h2]
    simp [Processes.revDigits]

/-- Claim C10 witness: instantiation at pid 1234 — the path buffer
contains exactly "/proc/1234/comm" and parsing "1234" returns 1234. -/
theorem c10_write_path_roundtrip_witness :
    (0 < 1234 ∧ 1234 ≤ Processes.i32Max) ∧
    (∃ buf,
      Processes.write_proc_comm_path 1234 (List.replicate 32 0)
        = some (buf, (PROCB ++ Processes.revDigits 1234 ++ COMMB).length) ∧
      buf.take ((PROCB ++ Processes.revDigits 1234 ++ COMMB).length)
        = PROCB ++ Processes.revDigits 1234 ++ COMMB ∧
      (∀ d, (Processes.revDigits 1234).head? = some d → d ≠ 48) ∧
      Processes.parse_pid_from_bytes (Processes.revDigits 1234) = some 1234) :=
  ⟨⟨by decide, by decide⟩, c10_write_path_roundtrip 1234 (by decide) (by decide)⟩

lemma name_path_inj (x y : List Nat) :
    PROCB ++ x ++ COMMB = PROCB ++ y ++ COMMB ↔ x = y := by
  constructor
  · intro h
    exact List.append_cancel_left (List.append_cancel_right h)
  · rintro rfl
    rfl

lemma openPath_entry (es : List DirEntry) (e : DirEntry) :
    e ∈ es → (es.map DirEntry.name).Nodup →
    openPath es (PROCB ++ e.name ++ COMMB) = e.comm := by
  induction es with
  | nil => intro he _; exact absurd he (List.not_mem_nil e)
  | cons a rest ih =>
    intro he hnodup
    rw [List.map_cons, List.nodup_cons] at hnodup
    unfold openPath
    by_cases hname : a.name = e.name
    · rcases List.mem_cons.mp he with rfl | hrest
      · rw [List.find?_cons_of_pos _ (by simp)]
      · exact absurd (hname ▸ List.mem_map_of_mem DirEntry.name hrest) hnodup.1
    · rw [List.find?_cons_of_neg _ (by
        simp only [beq_iff_eq, name_path_inj]
        exact hname)]
      have hrest : e ∈ rest := by
        rcases List.mem_cons.mp he with rfl | h2
        · exact absurd rfl hname
        · exact h2
      exact ih hrest hnodup.2

lemma openPath_some (es : List DirEntry) (ds c : List Nat)
    (h : openPath es (PROCB ++ ds ++ COMMB) = some c) :
    ∃ e2 ∈ es, e2.name = ds ∧ e2.comm = some c := by
  unfold openPath at h
  cases hf : List.find?
      (fun x => (PROCB ++ x.name ++ COMMB : List Nat) == (PROCB ++ ds ++ COMMB)) es with
  | none => rw [hf] at h; exact absurd h (by simp)
  | some e2 =>
    rw [hf] at h
    have hp := List.find?_some hf
    have hm := List.mem_of_find?_eq_some hf
    exact ⟨e2, hm, (name_path_inj _ _).mp (by simpa using hp), h⟩

lemma stripRead_eq_stripNl (c : List Nat) (h : c.length ≤ 16) :
    Processes.stripRead c = stripNl c := by
  simp only [Processes.stripRead, stripNl]
  rw [List.take_of_length_le h]

lemma readUntilNl_eq (c : List Nat) : ¬ 10 ∈ c.dropLast → Cli.readUntilNl c = c := by
  induction c with
  | nil => intro _; rfl
  | cons b bs ih =>
    intro h
    cases bs with
    | nil =>
      by_cases hb : b = 10
      · subst hb; rfl
      · simp [Cli.readUntilNl, hb]
    | cons b2 bs2 =>
      have hb : ¬ b = 10 := by
        intro hc
        subst hc
        exact h (by simp [List.dropLast])
      have h2 : ¬ 10 ∈ (b2 :: bs2).dropLast := by
        intro hm
        exact h (by simp [List.dropLast, hm])
      rw [show Cli.readUntilNl (b :: b2 :: bs2)
          = (if b = 10 then [10] else b :: Cli.readUntilNl (b2 :: bs2)) from rfl,
        if_neg hb, ih h2]

lemma check_entry_processes_iff (es : List DirEntry) (e : DirEntry)
    (target : List Nat) (p : Nat) :
    Processes.check_entry es e target = some p ↔
      (Processes.parse_pid_from_bytes e.name = some p ∧
       ∃ c, openPath es (PROCB ++ Processes.revDigits p ++ COMMB) = some c ∧
         Processes.stripRead c = target) := by
  unfold Processes.check_entry
  cases hp : Processes.parse_pid_from_bytes e.name with
  | none => simp
  | some pid =>
    have hb := (Processes.parse_eq_some_iff e.name pid).mp hp
    have h0 : 0 < pid := hb.2.2.2.1
    have hmax : pid ≤ Processes.i32Max := hb.2.2.2.2.1
    have ht : (Processes.writeSeq
        (Processes.writeSeq (Processes.writeSeq (List.replicate 32 0) 0 PROCB)
          PROCB.length (Processes.lsbDigits pid).reverse)
        (PROCB.length + (Processes.lsbDigits pid).reverse.length) COMMB).take
        (PROCB.length + (Processes.lsbDigits pid).reverse.length + COMMB.length)
        = PROCB ++ Processes.revDigits pid ++ COMMB := by
      rw [write_path_take pid h0 hmax]
      simp [Processes.revDigits]
    simp only [write_path_eval pid h0 hmax, ht]
    by_cases hpe : pid = p
    · subst hpe
      cases ho : openPath es (PROCB ++ Processes.revDigits pid ++ COMMB) with
      | none => simp [ho]
      | some c =>
        by_cases hs : Processes.stripRead c = target
        · simp [ho, hs]
        · simp only [ho, if_neg hs]
          constructor
          · intro hc; exact absurd hc (by simp)
          · rintro ⟨-, c2, hc2, hs2⟩
            have : c2 = c := by injection hc2.symm
            exact absurd (this ▸ hs2) hs
    · constructor
      · intro hc
        cases ho : openPath es (PROCB ++ Processes.revDigits pid ++ COMMB) with
        | none => simp only [ho] at hc; exact absurd hc (by simp)
        | some c =>
          simp only [ho] at hc
          by_cases hs : Processes.stripRead c = target
          · rw [if_pos hs] at hc
            exact absurd (by injection hc) hpe
          · rw [if_neg hs] at hc
            exact absurd hc (by simp)
      · rintro ⟨hps, -⟩
        exact absurd (by injection hps) hpe

lemma write_path_take_canonical (pid : Nat) (h0 : 0 < pid)
    (h2 : pid ≤ Processes.i32Max) :
    (Processes.writeSeq
        (Processes.writeSeq (Processes.writeSeq (List.replicate 32 0) 0 PROCB)
          PROCB.length (Processes.lsbDigits pid).reverse)
        (PROCB.length + (Processes.lsbDigits pid).reverse.length) COMMB).take
        (PROCB.length + (Processes.lsbDigits pid).reverse.length + COMMB.length)
      = PROCB ++ Processes.revDigits pid ++ COMMB := by
  rw [write_path_take pid h0 h2]
  simp [Processes.revDigits]

lemma parse_i32_eq_u32_filter (bs : List Nat) :
    Processes.parse_pid_from_bytes bs
      = (Cli.parse_pid_from_bytes bs).bind
          (fun v => if v ≤ Processes.i32Max then some v else none) := by
  rw [parse_spec_i32, parse_spec_u32]
  by_cases hu : bs ≠ [] ∧ bs.length ≤ 10 ∧ (∀ b ∈ bs, isDigitB b) ∧
      0 < decVal bs ∧ decVal bs ≤ Cli.u32Max
  · rw [if_pos hu, Option.some_bind]
    by_cases hv : decVal bs ≤ Processes.i32Max
    · rw [if_pos ⟨hu.1, hu.2.1, hu.2.2.1, hu.2.2.2.1, hv⟩, if_pos hv]
    · rw [if_neg (by rintro ⟨-, -, -, -, h5⟩; exact hv h5), if_neg hv]
  · rw [if_neg hu, if_neg (by
      rintro ⟨h1, h2, h3, h4, h5⟩
      exact hu ⟨h1, h2, h3, h4,
        le_trans h5 (by norm_num [Processes.i32Max, Cli.u32Max])⟩)]
    rfl

lemma check_entry_agree (es : List DirEntry) (e : DirEntry) (target : List Nat)
    (hwf : ∀ x ∈ es, recOk x = true ∧ recNlOk x = true)
    (hpid : pidOk e = true) (hcanon : canonOk e = true) :
    Cli.check_entry es e target = Processes.check_entry es e target := by
  unfold Cli.check_entry
  by_cases hall : e.name.all isDigitB
  · rw [if_neg (by simpa using hall)]
    cases hcp : Cli.parse_pid_from_bytes e.name with
    | none =>
      have hpn : Processes.parse_pid_from_bytes e.name = none := by
        rw [parse_i32_eq_u32_filter, hcp]
        rfl
      unfold Processes.check_entry
      simp [hpn]
    | some pid =>
      have hple : pid ≤ Processes.i32Max := by
        unfold pidOk at hpid
        rw [hcp] at hpid
        simpa using hpid
      have hpp : Processes.parse_pid_from_bytes e.name = some pid := by
        rw [parse_i32_eq_u32_filter, hcp, Option.some_bind, if_pos hple]
      have hname : e.name = Processes.revDigits pid := by
        unfold canonOk at hcanon
        rw [hpp] at hcanon
        simpa using hcanon
      have hb := (Processes.parse_eq_some_iff e.name pid).mp hpp
      have h0 : 0 < pid := hb.2.2.2.1
      have hpp2 : Processes.parse_pid_from_bytes (Processes.revDigits pid)
          = some pid := parse_revDigits pid h0 hple
      unfold Processes.check_entry
      rw [hname]
      simp only [hpp2, write_path_eval pid h0 hple,
        write_path_take_canonical pid h0 hple]
      cases ho : openPath es (PROCB ++ Processes.revDigits pid ++ COMMB) with
      | none => rfl
      | some c =>
        obtain ⟨e2, he2, -, hcomm2⟩ := openPath_some es _ c ho
        obtain ⟨hr1, hr2⟩ := hwf e2 he2
        have hlen : c.length ≤ 16 := by
          unfold recOk at hr1
          rw [hcomm2] at hr1
          simpa using hr1
        have hnl : ¬ 10 ∈ c.dropLast := by
          unfold recNlOk at hr2
          rw [hcomm2] at hr2
          simpa using hr2
        show (if (if (Cli.readUntilNl c).getLast? = some 10
               then (Cli.readUntilNl c).dropLast else Cli.readUntilNl c) = target
             then some pid else none)
          = (if Processes.stripRead c = target then some pid else none)
        rw [readUntilNl_eq c hnl, stripRead_eq_stripNl c hlen]
        simp only [stripNl]
  · rw [if_pos (by simpa using hall)]
    have hnd : ∃ b ∈ e.name, ¬ isDigitB b := by
      simpa [List.all_eq_true] using hall
    have hpn : Processes.parse_pid_from_bytes e.name = none := by
      rw [parse_spec_i32, if_neg]
      rintro ⟨-, -, hd, -⟩
      rcases hnd with ⟨b, hb, hnb⟩
      exact hnb (hd b hb)
    unfold Processes.check_entry
    simp [hpn]

/-- Claim C9 (amended): the two copies of `parse_pid_from_bytes` agree
exactly up to the identifier width — the processes.rs (i32) copy returns
the main.rs (u32) result filtered to values that fit an `i32`; and the
two `check_entry` copies accept the same entries with the same pids on
every entry whose parsed pid (if any) fits an `i32`, whose name is the
canonical digit string of its pid, and whose table's readable records are
at most 16 bytes with a newline only in final position. -/
theorem c9_pipeline_equivalence :
    (∀ bs : List Nat,
      Processes.parse_pid_from_bytes bs
        = (Cli.parse_pid_from_bytes bs).bind
            (fun v => if v ≤ Processes.i32Max then some v else none)) ∧
    (∀ (es : List DirEntry) (e : DirEntry) (target : List Nat),
      (∀ x ∈ es, recOk x = true ∧ recNlOk x = true) →
      pidOk e = true → canonOk e = true →
      Cli.check_entry es e target = Processes.check_entry es e target) :=
  ⟨parse_i32_eq_u32_filter, check_entry_agree⟩

/-- Claim C9 witness: on the canonical, well-formed entry "42" with record
"bash\n", the two `check_entry` copies agree. -/
theorem c9_pipeline_equivalence_witness :
    ((∀ x ∈ ([⟨[52, 50], some [98, 97, 115, 104, 10]⟩] : List DirEntry),
        recOk x = true ∧ recNlOk x = true) ∧
     pidOk ⟨[52, 50], some [98, 97, 115, 104, 10]⟩ = true ∧
     canonOk ⟨[52, 50], some [98, 97, 115, 104, 10]⟩ = true) ∧
    Cli.check_entry [⟨[52, 50], some [98, 97, 115, 104, 10]⟩]
        ⟨[52, 50], some [98, 97, 115, 104, 10]⟩ [98, 97, 115, 104]
      = Processes.check_entry [⟨[52, 50], some [98, 97, 115, 104, 10]⟩]
        ⟨[52, 50], some [98, 97, 115, 104, 10]⟩ [98, 97, 115, 104] :=
  ⟨⟨by decide, by decide, by decide⟩,
    c9_pipeline_equivalence.2 _ _ _ (by decide) (by decide) (by decide)⟩

/-- Claim C9 counterexample: on the all-digit input "2147483648" the
main.rs copy returns the pid 2147483648 while the processes.rs copy
returns no result (its `i32` accumulator overflows); and on the entry "1"
with a 17-byte record the main.rs `check_entry` rejects the 16-byte
target while the processes.rs copy accepts it, because one reads the
whole first line and the other reads only 16 bytes. -/
theorem c9_counterexample :
    (Cli.parse_pid_from_bytes [50, 49, 52, 55, 52, 56, 51, 54, 52, 56]
        = some 2147483648 ∧
     Processes.parse_pid_from_bytes [50, 49, 52, 55, 52, 56, 51, 54, 52, 56]
        = none) ∧
    (Cli.check_entry [⟨[49], some (List.replicate 17 97)⟩]
        ⟨[49], some (List.replicate 17 97)⟩ (List.replicate 16 97) = none ∧
     Processes.check_entry [⟨[49], some (List.replicate 17 97)⟩]
        ⟨[49], some (List.replicate 17 97)⟩ (List.replicate 16 97) = some 1) := by
  decide

/-- Claim C1 (amended): over fixtures whose entries are canonically named
(names of parsable entries are the exact decimal digit strings of their
pids), pairwise distinctly named (as in any real directory), and whose
readable records are at most 16 bytes (the size of the read buffer, and
the maximum the OS ever stores in a comm record), discovery returns a
successful — possibly empty — list that contains a pid `p` exactly when
some entry's all-digit name parses to the nonzero `p`, its record is
readable, and the record with a single trailing newline stripped equals
the target byte-for-byte. -/
theorem c1_discover_iff (es : List DirEntry) (target : List Nat) (p : Nat)
    (hrec : ∀ e ∈ es, recOk e = true)
    (hcanon : ∀ e ∈ es, canonOk e = true)
    (hnodup : (es.map DirEntry.name).Nodup) :
    ∃ l, Processes.list_pids_by_comm target (some es) = Except.ok l ∧
      (p ∈ l ↔ ∃ e ∈ es, c1Matches target p e = true) := by
  refine ⟨_, rfl, ?_⟩
  rw [List.mem_filterMap]
  constructor
  · rintro ⟨e, he, hce⟩
    rw [check_entry_processes_iff] at hce
    obtain ⟨hparse, c, hopen, hstrip⟩ := hce
    obtain ⟨e2, he2, hname2, hcomm2⟩ := openPath_some es _ c hopen
    have hbounds := (Processes.parse_eq_some_iff e.name p).mp hparse
    have hp0 : 0 < p := hbounds.2.2.2.1
    have hpmax : p ≤ Processes.i32Max := hbounds.2.2.2.2.1
    have hparse2 : Processes.parse_pid_from_bytes e2.name = some p := by
      rw [hname2]
      exact parse_revDigits p hp0 hpmax
    have hlen : c.length ≤ 16 := by
      have hrec2 := hrec e2 he2
      unfold recOk at hrec2
      rw [hcomm2] at hrec2
      simpa using hrec2
    refine ⟨e2, he2, ?_⟩
    unfold c1Matches
    rw [hcomm2]
    simp only [Bool.and_eq_true, beq_iff_eq, decide_eq_true_eq, List.all_eq_true]
    refine ⟨⟨⟨?_, hparse2⟩, hp0⟩, ?_⟩
    · intro b hb
      rw [hname2] at hb
      exact lsbDigits_digits p b (by simpa [Processes.revDigits] using hb)
    · rw [← stripRead_eq_stripNl c hlen]
      exact hstrip
  · rintro ⟨e, he, hm⟩
    unfold c1Matches at hm
    cases hcomm : e.comm with
    | none => rw [hcomm] at hm; simp at hm
    | some c =>
      rw [hcomm] at hm
      simp only [Bool.and_eq_true, beq_iff_eq, decide_eq_true_eq,
        List.all_eq_true] at hm
      obtain ⟨⟨⟨-, hparse⟩, -⟩, hstrip⟩ := hm
      refine ⟨e, he, ?_⟩
      rw [check_entry_processes_iff]
      refine ⟨hparse, c, ?_, ?_⟩
      · have hcanon_e := hcanon e he
        unfold canonOk at hcanon_e
        rw [hparse] at hcanon_e
        have hname : e.name = Processes.revDigits p := by simpa using hcanon_e
        rw [← hname, openPath_entry es e he hnodup, hcomm]
      · have hlen : c.length ≤ 16 := by
          have hrec_e := hrec e he
          unfold recOk at hrec_e
          rw [hcomm] at hrec_e
          simpa using hrec_e
        rw [stripRead_eq_stripNl c hlen]
        exact hstrip

/-- Claim C1 witness: the fixture `{"1234": "myprocess\n"}` is canonical
and well-formed, and discovery of "myprocess" over it returns a list
containing 1234 exactly as the per-entry condition predicts. -/
theorem c1_discover_iff_witness :
    ((∀ e ∈ ([⟨[49, 50, 51, 52], some [109, 121, 112, 114, 111, 99, 101, 115, 115, 10]⟩] :
        List DirEntry), recOk e = true) ∧
     (∀ e ∈ ([⟨[49, 50, 51, 52], some [109, 121, 112, 114, 111, 99, 101, 115, 115, 10]⟩] :
        List DirEntry), canonOk e = true) ∧
     (([⟨[49, 50, 51, 52], some [109, 121, 112, 114, 111, 99, 101, 115, 115, 10]⟩] :
        List DirEntry).map DirEntry.name).Nodup) ∧
    (∃ l, Processes.list_pids_by_comm [109, 121, 112, 114, 111, 99, 101, 115, 115]
        (some [⟨[49, 50, 51, 52], some [109, 121, 112, 114, 111, 99, 101, 115, 115, 10]⟩])
        = Except.ok l ∧
      (1234 ∈ l ↔ ∃ e ∈ ([⟨[49, 50, 51, 52], some [109, 121, 112, 114, 111, 99, 101, 115, 115, 10]⟩] :
          List DirEntry),
        c1Matches [109, 121, 112, 114, 111, 99, 101, 115, 115] 1234 e = true)) :=
  ⟨⟨by decide, by decide, by decide⟩,
    c1_discover_iff _ _ _ (by decide) (by decide) (by decide)⟩

/-- Claim C1 counterexample, two fixtures. First: the entry "1" has a
17-byte record of letters "a"; the code reads only the first 16 bytes and
reports pid 1 for the 16-byte target, although no entry's full record
(after newline stripping) equals that target. Second: the non-canonically
named entry "01" parses to pid 1 and its record strips to "bash", so the
claim demands pid 1 in the result, but the code reads `/proc/1/comm` — a
path that does not exist in the fixture — and returns the empty list. -/
theorem c1_counterexample :
    (Processes.list_pids_by_comm (List.replicate 16 97)
        (some [⟨[49], some (List.replicate 17 97)⟩]) = Except.ok [1] ∧
      ¬ ∃ e ∈ ([⟨[49], some (List.replicate 17 97)⟩] : List DirEntry),
          c1Matches (List.replicate 16 97) 1 e = true) ∧
    (Processes.list_pids_by_comm [98, 97, 115, 104]
        (some [⟨[48, 49], some [98, 97, 115, 104, 10]⟩]) = Except.ok [] ∧
      ∃ e ∈ ([⟨[48, 49], some [98, 97, 115, 104, 10]⟩] : List DirEntry),
          c1Matches [98, 97, 115, 104] 1 e = true) :=
  ⟨⟨rfl, by decide⟩, ⟨rfl, by decide⟩⟩

/-- Claim C8: discovery is deterministic — two successive calls with the
same target against an unchanged process table return the same result. -/
theorem c8_discover_idempotent :
    ∀ (target : List Nat) (root : Option (List DirEntry)),
      (discoverTwice target root).1 = (discoverTwice target root).2 := by
  intro target root
  rfl
